import Mathlib

/-!
Verification of the EPUB inspection core of `ebook-tools`.

The Rust sources are shallowly embedded: strings are modelled as `String`
(with character-level helpers on `List Char`), the ZIP archive as a list of
entries, and the quick-xml pull reader as an explicit list of `XmlEvent`s
paired with each entry's raw text (the event list is the stream the reader
would produce for that text; `read_to_string` failure on non-UTF-8 data is
modelled by a `none` raw field).  Character predicates (`to_lowercase`,
`trim`, `is_whitespace`) are modelled on ASCII, where they agree with Rust.
-/

namespace EbookTools

/-- Format enumeration from `src/format.rs`. -/
inductive Format
  | Epub
  | Kepub
  | Mobi
  | Azw3
deriving DecidableEq, Repr

/-- ASCII lower-casing of a character list, modelling `str::to_lowercase`
(which agrees with this on ASCII input). -/
def lowerL (l : List Char) : List Char :=
  l.map Char.toLower

/-- Final path component: everything after the last slash.  Models
`Path::file_name` for paths that do not end in a separator or a dot
component, which is the only regime the theorems below use. -/
def fileNameL (l : List Char) : List Char :=
  (l.reverse.takeWhile (fun c => c ≠ '/')).reverse

/-- Model of `Path::extension`: the portion of the file name after the last
dot, or none when the file name has no dot after its first character. -/
def rustExtension (p : List Char) : Option (List Char) :=
  let name := fileNameL p
  let extRev := name.reverse.takeWhile (fun c => c ≠ '.')
  if extRev.length = name.length then none
  else if extRev.length + 1 = name.length then none
  else some extRev.reverse

/-- Embeds `Format::from_path` (`src/format.rs`): lower-case the whole path,
test the compound `.kepub.epub` suffix first, then match the plain
extension. -/
def fromPathL (p : List Char) : Option Format :=
  if ".kepub.epub".toList <:+ lowerL p then some Format.Kepub
  else
    match rustExtension p with
    | none => none
    | some ext =>
      let e := lowerL ext
      if e = "epub".toList then some Format.Epub
      else if e = "mobi".toList then some Format.Mobi
      else if e = "azw3".toList then some Format.Azw3
      else none

/-- String-level wrapper for `Format::from_path`. -/
def Format.from_path (p : String) : Option Format :=
  fromPathL p.toList

/-- Embeds `Format::extension` (`src/format.rs`). -/
def Format.extension : Format → String
  | Format.Epub => "epub"
  | Format.Kepub => "kepub.epub"
  | Format.Mobi => "mobi"
  | Format.Azw3 => "azw3"

/-- Embeds `Format::name` (`src/format.rs`). -/
def Format.name : Format → String
  | Format.Epub => "EPUB"
  | Format.Kepub => "Kobo KePub"
  | Format.Mobi => "Mobipocket"
  | Format.Azw3 => "Kindle AZW3"

/-- Embeds `Metadata` (`src/metadata.rs`).  The Rust `series_index` field is
`Option<f64>` obtained by `content.parse::<f64>().ok()`; floating point is
outside this embedding, so the raw attribute text is kept instead (no claim
inspects the parsed value). -/
structure Metadata where
  title : Option String := none
  authors : List String := []
  description : Option String := none
  publisher : Option String := none
  language : Option String := none
  isbn : Option String := none
  publication_date : Option String := none
  subjects : List String := []
  series : Option String := none
  series_index : Option String := none
deriving DecidableEq, Repr

/-- Known DRM schemes (`src/drm.rs`). -/
inductive DrmScheme
  | AdobeAdept
  | KoboProtected
  | AmazonKindle
  | Other (scheme : String)
deriving DecidableEq, Repr

/-- DRM status of an ebook (`src/drm.rs`). -/
inductive DrmStatus
  | None
  | Protected (scheme : DrmScheme)
  | Unknown
deriving DecidableEq, Repr

/-- Error taxonomy from `src/error.rs`.  The `Io` and `OtherErr` payloads
(wrapped `std::io::Error` / `anyhow::Error`) are never inspected by the core
logic, so they carry no data here. -/
inductive Error
  | UnsupportedFormat (f : Format)
  | UnknownFormat (path : String)
  | FileNotFound (path : String)
  | InvalidBook (msg : String)
  | Io
  | OtherErr
deriving DecidableEq, Repr

/-- Cover image information (`src/epub/mod.rs`, `CoverInfo`). -/
structure CoverInfo where
  href : String
  size : Nat
deriving DecidableEq, Repr

/-- Pull-parser events, modelling `quick_xml::events::Event` as consumed by
the code: start tags, self-closing (empty) tags, end tags, text (already
unescaped), and a reader error.  `Event::Eof` is the end of the list. -/
inductive XmlEvent
  | startTag (name : String) (attrs : List (String × String))
  | emptyTag (name : String) (attrs : List (String × String))
  | endTag (name : String)
  | text (s : String)
  | err (msg : String)
deriving DecidableEq, Repr

/-- One ZIP entry.  `stored` models `compression() == CompressionMethod::Stored`;
`raw` is the `read_to_string` result (`none` when the bytes are not valid
UTF-8, so the read fails); `events` is the event stream the quick-xml reader
produces when the entry's text is parsed as XML; `size` is `entry.size()`. -/
structure Entry where
  name : String
  stored : Bool
  raw : Option String
  events : List XmlEvent
  size : Nat
deriving DecidableEq, Repr

/-- Lookup by entry name, modelling `ZipArchive::by_name`. -/
def byName (zip : List Entry) (n : String) : Option Entry :=
  zip.find? (fun e => e.name = n)

/-- Character-list form of the namespace-prefix stripper `local_name`
(`src/epub/mod.rs`): everything after the first colon, or the input when
there is none. -/
def localNameL (l : List Char) : List Char :=
  match l.dropWhile (fun c => c ≠ ':') with
  | [] => l
  | _ :: rest => rest

/-- Embeds `local_name` on strings. -/
def local_name (s : String) : String :=
  String.mk (localNameL s.toList)

/-- ASCII whitespace trim on character lists, modelling `str::trim` (which
agrees with this on ASCII whitespace). -/
def trimL (l : List Char) : List Char :=
  ((l.dropWhile Char.isWhitespace).reverse.dropWhile Char.isWhitespace).reverse

/-- String-level trim wrapper. -/
def trimS (s : String) : String :=
  String.mk (trimL s.toList)

/-- Whitespace-delimited tokens of a string, modelling `str::split_whitespace`
(empty tokens removed). -/
def wsTokens (s : String) : List (List Char) :=
  (s.toList.splitOnP Char.isWhitespace).filter (fun t => t ≠ [])

/-- Substring containment, modelling `str::contains(&str)`. -/
def containsSubstr (hay needle : String) : Bool :=
  decide (needle.toList <:+: hay.toList)

/-- Embeds `looks_like_isbn` (`src/epub/mod.rs`): keep ASCII digits and the
character X, accept when exactly 10 or 13 remain. -/
def looks_like_isbn (s : String) : Bool :=
  let digits := s.toList.filter (fun c => c.isDigit || c = 'X')
  digits.length = 10 || digits.length = 13

/-- Embeds `validate_mimetype` (`src/epub/mod.rs`): inspect the first
physical entry; an empty archive or a wrong first-entry name produces its
warning and returns; otherwise the storage-method check and the content
check (on the entry re-opened by name, when readable) each add their own
warning.  Warnings are appended; no error is possible. -/
def validate_mimetype (zip : List Entry) (warnings : List String) : List String :=
  match zip.head? with
  | none => warnings ++ ["mimetype file: ZIP archive is empty"]
  | some entry =>
    if entry.name ≠ "mimetype" then
      warnings ++
        ["mimetype file: first ZIP entry is \x27" ++ entry.name ++
          "\x27, expected \x27mimetype\x27"]
    else
      let ws :=
        if entry.stored then warnings
        else warnings ++ ["mimetype file: should be stored uncompressed"]
      match byName zip "mimetype" with
      | none => ws
      | some e2 =>
        match e2.raw with
        | none => ws
        | some contents =>
          if trimS contents ≠ "application/epub+zip" then
            ws ++
              ["mimetype file: expected \x27application/epub+zip\x27, got \x27" ++
                trimS contents ++ "\x27"]
          else ws

/-- Event loop of `parse_container` (`src/epub/mod.rs`, lines 199-222): scan
for a start or self-closing element whose raw qualified name is exactly
`rootfile`, returning the value of its first `full-path` attribute; a reader
error warns and fails; end of stream with no hit fails. -/
def rootfileScan : List XmlEvent → List String → Except Error String × List String
  | [], ws =>
    (Except.error (Error.InvalidBook "container.xml: no rootfile element found"), ws)
  | XmlEvent.startTag n attrs :: rest, ws =>
    if n = "rootfile" then
      match attrs.find? (fun a => a.1 = "full-path") with
      | some a => (Except.ok a.2, ws)
      | none => rootfileScan rest ws
    else rootfileScan rest ws
  | XmlEvent.emptyTag n attrs :: rest, ws =>
    if n = "rootfile" then
      match attrs.find? (fun a => a.1 = "full-path") with
      | some a => (Except.ok a.2, ws)
      | none => rootfileScan rest ws
    else rootfileScan rest ws
  | XmlEvent.err msg :: _, ws =>
    (Except.error (Error.InvalidBook ("failed to parse container.xml: " ++ msg)),
      ws ++ ["META-INF/container.xml: XML parse error: " ++ msg])
  | _ :: rest, ws => rootfileScan rest ws

/-- Embeds `parse_container` (`src/epub/mod.rs`): a missing or unreadable
`META-INF/container.xml` appends a warning and fails with `InvalidBook`;
otherwise the event stream is scanned by `rootfileScan`. -/
def parse_container (zip : List Entry) (warnings : List String) :
    Except Error String × List String :=
  match byName zip "META-INF/container.xml" with
  | none =>
    (Except.error (Error.InvalidBook "META-INF/container.xml not found"),
      warnings ++ ["META-INF/container.xml is missing"])
  | some entry =>
    match entry.raw with
    | none =>
      (Except.error (Error.InvalidBook "failed to read container.xml: io error"),
        warnings ++ ["META-INF/container.xml: failed to read: io error"])
    | some _ => rootfileScan entry.events warnings

/-- Mutable scan state of `parse_opf` (`src/epub/mod.rs`, lines 248-258). -/
structure OpfState where
  epub_version : Option String := none
  metadata : Metadata := {}
  in_metadata : Bool := false
  in_manifest : Bool := false
  current_element : Option String := none
  current_text : String := ""
  cover_meta_id : Option String := none
  manifest_items : List (String × String × Option String) := []
deriving DecidableEq, Repr

/-- Routing of a completed metadata element's trimmed text by local name
(`src/epub/mod.rs`, lines 294-309). -/
def routeField (md : Metadata) (elem : String) (text : String) : Metadata :=
  if elem = "title" then { md with title := some text }
  else if elem = "creator" then { md with authors := md.authors ++ [text] }
  else if elem = "description" then { md with description := some text }
  else if elem = "publisher" then { md with publisher := some text }
  else if elem = "language" then { md with language := some text }
  else if elem = "identifier" then
    if md.isbn = none ∧ looks_like_isbn text then { md with isbn := some text } else md
  else if elem = "date" then { md with publication_date := some text }
  else if elem = "subject" then { md with subjects := md.subjects ++ [text] }
  else md

/-- Attribute loop `for attr in e.attributes() { if key = k { v = Some(..) } }`:
the last attribute with the given key wins, the default is kept when none
matches. -/
def lastAttr (attrs : List (String × String)) (key : String)
    (dflt : Option String) : Option String :=
  attrs.foldl (fun acc a => if a.1 = key then some a.2 else acc) dflt

/-- Transition of the OPF scan on one (non-error) event, transcribing the
match arms of the event loop in `parse_opf` (`src/epub/mod.rs`,
lines 260-382). -/
def opfStep (st : OpfState) (e : XmlEvent) : OpfState :=
  match e with
  | XmlEvent.startTag n attrs =>
    let loc := local_name n
    if loc = "package" then
      { st with epub_version := lastAttr attrs "version" st.epub_version }
    else if loc = "metadata" then { st with in_metadata := true }
    else if loc = "manifest" then { st with in_manifest := true }
    else if st.in_metadata then
      { st with current_element := some loc, current_text := "" }
    else st
  | XmlEvent.endTag n =>
    let loc := local_name n
    if loc = "metadata" then { st with in_metadata := false }
    else if loc = "manifest" then { st with in_manifest := false }
    else if st.in_metadata then
      match st.current_element with
      | some elem =>
        let text := trimS st.current_text
        let md := if text ≠ "" then routeField st.metadata elem text else st.metadata
        { st with metadata := md, current_element := none }
      | none => { st with current_element := none }
    else st
  | XmlEvent.emptyTag n attrs =>
    let loc := local_name n
    if loc = "meta" ∧ st.in_metadata then
      match lastAttr attrs "name" none, lastAttr attrs "content" none with
      | some nm, some c =>
        if nm = "cover" then { st with cover_meta_id := some c }
        else if nm = "calibre:series" then
          { st with metadata := { st.metadata with series := some c } }
        else if nm = "calibre:series_index" then
          { st with metadata := { st.metadata with series_index := some c } }
        else st
      | _, _ => st
    else if loc = "item" ∧ st.in_manifest then
      let id := (lastAttr attrs "id" none).getD ""
      let href := (lastAttr attrs "href" none).getD ""
      let props := lastAttr attrs "properties" none
      if id ≠ "" then
        { st with manifest_items := st.manifest_items ++ [(id, href, props)] }
      else st
    else st
  | XmlEvent.text s =>
    if st.current_element.isSome then
      { st with current_text := st.current_text ++ s }
    else st
  | XmlEvent.err _ => st

/-- Event loop of `parse_opf`: fold `opfStep` over the stream, aborting with
the reader's message on an error event. -/
def opfScan : OpfState → List XmlEvent → Except String OpfState
  | st, [] => Except.ok st
  | _, XmlEvent.err msg :: _ => Except.error msg
  | st, e :: rest => opfScan (opfStep st e) rest

/-- Base directory of the OPF path: everything up to and including the last
slash, empty when there is none (`src/epub/mod.rs`, lines 241-244). -/
def opfDirL (l : List Char) : List Char :=
  (l.reverse.dropWhile (fun c => c ≠ '/')).reverse

/-- String-level wrapper for the OPF base directory. -/
def opfDir (s : String) : String :=
  String.mk (opfDirL s.toList)

/-- Embeds `resolve_cover` (`src/epub/mod.rs`): try the full path, then the
bare href; on a miss of both, warn and return no cover. -/
def resolve_cover (zip : List Entry) (full_path href : String)
    (warnings : List String) : Option CoverInfo × List String :=
  match byName zip full_path with
  | some e => (some { href := full_path, size := e.size }, warnings)
  | none =>
    match byName zip href with
    | some e => (some { href := href, size := e.size }, warnings)
    | none => (none, warnings ++ ["cover image file not found in ZIP: " ++ href])

/-- Strategy 2 loop of `detect_cover`: the first manifest item whose
`properties` attribute contains the whitespace token `cover-image` is
resolved; no item yields no cover and no warning. -/
def coverFromProperties (zip : List Entry) (dir : String) :
    List (String × String × Option String) → List String →
      Option CoverInfo × List String
  | [], ws => (none, ws)
  | (_, href, props) :: rest, ws =>
    match props with
    | some p =>
      if (wsTokens p).any (fun w => w = "cover-image".toList) then
        resolve_cover zip (dir ++ href) href ws
      else coverFromProperties zip dir rest ws
    | none => coverFromProperties zip dir rest ws

/-- Embeds `detect_cover` (`src/epub/mod.rs`): strategy 1 resolves the
`<meta name="cover">` item id when it matches a manifest item (final
outcome); an unmatched id warns and falls through to strategy 2. -/
def detect_cover (zip : List Entry) (dir : String) (cover_meta_id : Option String)
    (manifest_items : List (String × String × Option String))
    (warnings : List String) : Option CoverInfo × List String :=
  match cover_meta_id with
  | some cover_id =>
    match manifest_items.find? (fun it => it.1 = cover_id) with
    | some it => resolve_cover zip (dir ++ it.2.1) it.2.1 warnings
    | none =>
      coverFromProperties zip dir manifest_items
        (warnings ++
          ["cover meta references item \x27" ++ cover_id ++
            "\x27 which is not in the manifest"])
  | none => coverFromProperties zip dir manifest_items warnings

/-- Manifest existence pass of `parse_opf` (`src/epub/mod.rs`,
lines 403-410): warn for every item resolving neither as `opf_dir + href`
nor as bare `href`. -/
def manifestChecks (zip : List Entry) (dir : String)
    (items : List (String × String × Option String))
    (warnings : List String) : List String :=
  items.foldl
    (fun ws it =>
      if (byName zip (dir ++ it.2.1)).isNone ∧ (byName zip it.2.1).isNone then
        ws ++
          ["manifest item \x27" ++ it.1 ++ "\x27 references \x27" ++ it.2.1 ++
            "\x27 which is not in the ZIP"]
      else ws)
    warnings

/-- Embeds `parse_opf` (`src/epub/mod.rs`): look up and read the package
document, run the event scan, add the post-scan title/language warnings,
resolve the cover, and check manifest references.  A missing document warns
and fails; an unreadable one fails with the propagated io error (no
warning); a reader error warns and fails. -/
def parse_opf (zip : List Entry) (opf_path : String) (warnings : List String) :
    Except Error (Option String × Metadata × Option CoverInfo) × List String :=
  match byName zip opf_path with
  | none =>
    (Except.error (Error.InvalidBook ("OPF file not found: " ++ opf_path)),
      warnings ++ ["OPF file not found in ZIP: " ++ opf_path])
  | some entry =>
    match entry.raw with
    | none => (Except.error Error.Io, warnings)
    | some _ =>
      let dir := opfDir opf_path
      match opfScan {} entry.events with
      | Except.error msg =>
        (Except.error (Error.InvalidBook ("failed to parse OPF: " ++ msg)),
          warnings ++ ["OPF parse error: " ++ msg])
      | Except.ok st =>
        let ws := warnings ++
          (if st.metadata.title = none then ["OPF: missing required <dc:title>"] else [])
        let ws := ws ++
          (if st.metadata.language = none then ["OPF: missing required <dc:language>"] else [])
        let res := detect_cover zip dir st.cover_meta_id st.manifest_items ws
        let ws := manifestChecks zip dir st.manifest_items res.2
        (Except.ok (st.epub_version, st.metadata, res.1), ws)

/-- Membership in the font-obfuscation algorithm set (`src/epub/mod.rs`,
lines 523-526). -/
def fontObf (alg : String) : Bool :=
  alg = "http://www.idpf.org/2008/embedding" || alg = "http://ns.adobe.com/pdf/enc#RC"

/-- Algorithm-collection loop of `detect_drm`: every `Algorithm` attribute
of every `EncryptionMethod` start or self-closing element (local name), in
document order; a reader error aborts the whole scan. -/
def collectAlgs : List XmlEvent → Except Unit (List String)
  | [] => Except.ok []
  | XmlEvent.err _ :: _ => Except.error ()
  | XmlEvent.startTag n attrs :: rest =>
    (collectAlgs rest).map (fun tl =>
      (if local_name n = "EncryptionMethod" then
        (attrs.filter (fun a => a.1 = "Algorithm")).map (fun a => a.2)
      else []) ++ tl)
  | XmlEvent.emptyTag n attrs :: rest =>
    (collectAlgs rest).map (fun tl =>
      (if local_name n = "EncryptionMethod" then
        (attrs.filter (fun a => a.1 = "Algorithm")).map (fun a => a.2)
      else []) ++ tl)
  | _ :: rest => collectAlgs rest

/-- Embeds `detect_drm` (`src/epub/mod.rs`): absent encryption.xml is no
DRM; unreadable is unknown; Adobe then Kobo raw-substring scans win over the
algorithm analysis; then a failed parse or an empty algorithm list is
unknown, an all-font-obfuscation list is no DRM, and otherwise the first
non-font-obfuscation algorithm names the scheme. -/
def detect_drm (zip : List Entry) : DrmStatus :=
  match byName zip "META-INF/encryption.xml" with
  | none => DrmStatus.None
  | some entry =>
    match entry.raw with
    | none => DrmStatus.Unknown
    | some content =>
      let has_adobe := containsSubstr content "urn:adobe:ns:adept" ||
        containsSubstr content "http://ns.adobe.com/adept"
      let has_kobo := containsSubstr content "urn:kobo:"
      if has_adobe then DrmStatus.Protected DrmScheme.AdobeAdept
      else if has_kobo then DrmStatus.Protected DrmScheme.KoboProtected
      else
        match collectAlgs entry.events with
        | Except.error _ => DrmStatus.Unknown
        | Except.ok algorithms =>
          if algorithms.isEmpty then DrmStatus.Unknown
          else if algorithms.all fontObf then DrmStatus.None
          else
            DrmStatus.Protected (DrmScheme.Other
              ((algorithms.filter (fun a => ¬ fontObf a)).head?.getD "unknown"))

/-- Parsed EPUB snapshot (`src/epub/mod.rs`, `EpubBook`). -/
structure EpubBook where
  path : String
  format : Format
  epub_version : Option String
  metadata : Metadata
  drm_status : DrmStatus
  cover_info : Option CoverInfo
  warnings : List String
deriving DecidableEq, Repr

/-- Result of opening the path's file and handing it to `ZipArchive::new`:
the file may be missing, unreadable, readable but not a ZIP, or a ZIP with
the given entries. -/
inductive FileInput
  | notFound
  | ioError
  | notZip (msg : String)
  | zip (entries : List Entry)
deriving DecidableEq, Repr

/-- Embeds `EpubBook::open` (`src/epub/mod.rs`): gate on the format
classifier, open the archive, then run the mimetype validator, container
locator, package parser and DRM detector in order, accumulating warnings
into the snapshot.  The filesystem read is the explicit `file` argument. -/
def EpubBook.open (path : String) (file : FileInput) : Except Error EpubBook :=
  match Format.from_path path with
  | none => Except.error (Error.UnknownFormat path)
  | some format =>
    match file with
    | FileInput.notFound => Except.error (Error.FileNotFound path)
    | FileInput.ioError => Except.error Error.Io
    | FileInput.notZip msg =>
      Except.error (Error.InvalidBook ("not a valid ZIP archive: " ++ msg))
    | FileInput.zip entries =>
      let ws := validate_mimetype entries []
      match parse_container entries ws with
      | (Except.error e, _) => Except.error e
      | (Except.ok opf_path, ws) =>
        match parse_opf entries opf_path ws with
        | (Except.error e, _) => Except.error e
        | (Except.ok (epub_version, metadata, cover_info), ws) =>
          Except.ok
            { path := path
              format := format
              epub_version := epub_version
              metadata := metadata
              drm_status := detect_drm entries
              cover_info := cover_info
              warnings := ws }

instance {ε α : Type} [DecidableEq ε] [DecidableEq α] : DecidableEq (Except ε α) := fun x y =>
  match x, y with
  | Except.ok a, Except.ok b =>
    if h : a = b then Decidable.isTrue (by rw [h]) else Decidable.isFalse (by simp [h])
  | Except.error a, Except.error b =>
    if h : a = b then Decidable.isTrue (by rw [h]) else Decidable.isFalse (by simp [h])
  | Except.ok _, Except.error _ => Decidable.isFalse (by simp)
  | Except.error _, Except.ok _ => Decidable.isFalse (by simp)

/-- Helper: `takeWhile` passes through a first block that satisfies the
predicate everywhere. -/
theorem takeWhile_append_of_all {α : Type} {p : α → Bool} :
    ∀ {l₁ : List α} (l₂ : List α), (∀ a ∈ l₁, p a) →
      (l₁ ++ l₂).takeWhile p = l₁ ++ l₂.takeWhile p
  | [], _, _ => by simp
  | x :: t, l₂, h => by
    have hx : p x := h x (List.mem_cons_self x t)
    have ht : ∀ a ∈ t, p a := fun a ha => h a (List.mem_cons_of_mem x ha)
    have htail := takeWhile_append_of_all l₂ ht
    simp only [List.cons_append, List.takeWhile_cons, hx, if_true, htail]

/-- Helper: cancelling a common right block of a suffix relation. -/
theorem suffix_append_right_cancel {α : Type} {a b c : List α} :
    a ++ b <:+ c ++ b ↔ a <:+ c := by
  constructor
  · intro h
    rw [← List.reverse_prefix] at h
    simp only [List.reverse_append] at h
    rw [List.prefix_append_right_inj] at h
    rwa [List.reverse_prefix] at h
  · intro h
    rw [← List.reverse_prefix]
    simp only [List.reverse_append]
    rw [List.prefix_append_right_inj]
    rwa [List.reverse_prefix]

/-- Helper: a shorter suffix of a list is a suffix of any longer suffix. -/
theorem suffix_of_suffix_length_le {α : Type} {l₁ l₂ l₃ : List α}
    (h₁ : l₁ <:+ l₃) (h₂ : l₂ <:+ l₃) (h : l₁.length ≤ l₂.length) : l₁ <:+ l₂ := by
  rw [← List.reverse_prefix] at h₁ h₂ ⊢
  exact List.prefix_of_prefix_length_le h₁ h₂ (by simpa using h)

/-- Helper: the extension computed for `stem ++ "." ++ ext` is `ext`, when
`ext` is free of dots and slashes and the stem's final path component is
non-empty. -/
theorem rustExtension_append_ext (stem ext : List Char) (hfc : fileNameL stem ≠ [])
    (hdot : ∀ c ∈ ext, ¬ c = '.') (hslash : ∀ c ∈ ext, ¬ c = '/') :
    rustExtension (stem ++ '.' :: ext) = some ext := by
  have hrev : (stem ++ '.' :: ext).reverse = (ext.reverse ++ ['.']) ++ stem.reverse := by
    simp
  have hpass : ∀ c ∈ ext.reverse ++ ['.'], (decide (c ≠ '/')) = true := by
    intro c hc
    rcases List.mem_append.1 hc with hc | hc
    · simpa using hslash c (List.mem_reverse.1 hc)
    · simp at hc; simp [hc]
  have hname : fileNameL (stem ++ '.' :: ext) = fileNameL stem ++ '.' :: ext := by
    unfold fileNameL
    rw [hrev, takeWhile_append_of_all _ hpass]
    simp
  have hdotpass : ∀ c ∈ ext.reverse, (decide (c ≠ '.')) = true := by
    intro c hc
    simpa using hdot c (List.mem_reverse.1 hc)
  have hextrev :
      (fileNameL stem ++ '.' :: ext).reverse.takeWhile (fun c => decide (c ≠ '.')) =
        ext.reverse := by
    have : (fileNameL stem ++ '.' :: ext).reverse =
        ext.reverse ++ '.' :: (fileNameL stem).reverse := by simp
    rw [this, takeWhile_append_of_all _ hdotpass]
    simp
  have hlen0 : (fileNameL stem).length ≠ 0 := by
    simpa [List.length_eq_zero] using hfc
  simp only [rustExtension]
  rw [hname, hextrev]
  have c1 : ext.reverse.length ≠ (fileNameL stem ++ '.' :: ext).length := by
    simp only [List.length_reverse, List.length_append, List.length_cons]
    omega
  have c2 : ¬ (ext.reverse.length + 1 = (fileNameL stem ++ '.' :: ext).length) := by
    simp only [List.length_reverse, List.length_append, List.length_cons]
    omega
  rw [if_neg c1, if_neg c2]
  simp

/-- C7: `Format::from_path` is a pure total function; it lower-cases the
path and tests the compound `.kepub.epub` suffix before the plain-extension
match, so `book.kepub.epub` classifies as Kepub, `book.EPUB` as Epub
(case-insensitively), and `book.txt` as absent; no filesystem access is
involved. -/
theorem format_from_path_spec :
    (∀ p : List Char, ".kepub.epub".toList <:+ lowerL p → fromPathL p = some Format.Kepub)
    ∧ Format.from_path "book.kepub.epub" = some Format.Kepub
    ∧ Format.from_path "book.EPUB" = some Format.Epub
    ∧ Format.from_path "book.txt" = none := by
  refine ⟨?_, by decide, by decide, by decide⟩
  intro p h
  unfold fromPathL
  rw [if_pos h]

/-- C7 witness: the compound-suffix branch fires on a concrete mixed-case
path. -/
theorem format_from_path_spec_witness :
    (".kepub.epub".toList <:+ lowerL "x.KEPUB.epub".toList)
    ∧ fromPathL "x.KEPUB.epub".toList = some Format.Kepub :=
  ⟨by decide, format_from_path_spec.1 "x.KEPUB.epub".toList (by decide)⟩

/-- C9 counterexample: with stem `a.kepub` and format Epub, the path
`a.kepub` ++ `.` ++ `epub` classifies as Kepub, not Epub, refuting the
claim for arbitrary non-empty stems. -/
theorem extension_roundtrip_cex :
    Format.from_path ("a.kepub" ++ "." ++ Format.extension Format.Epub) = some Format.Kepub
    ∧ some Format.Kepub ≠ some Format.Epub := by
  constructor
  · decide
  · simp

/-- C9 (amended): classifying `stem ++ "." ++ f.extension()` recovers `f`
for every stem whose final path component is non-empty, except that for
Epub the lower-cased stem must not end in `.kepub` (such a path is a
Kobo-flavored EPUB and classifies as Kepub). -/
theorem extension_roundtrip (f : Format) (stem : List Char)
    (hfc : fileNameL stem ≠ [])
    (hk : f = Format.Epub → ¬ (".kepub".toList <:+ lowerL stem)) :
    fromPathL (stem ++ '.' :: (Format.extension f).toList) = some f := by
  cases f with
  | Kepub =>
    simp only [Format.extension]
    have hsuf : ".kepub.epub".toList <:+ lowerL (stem ++ '.' :: "kepub.epub".toList) := by
      unfold lowerL
      rw [List.map_append]
      have : List.map Char.toLower ('.' :: "kepub.epub".toList) = ".kepub.epub".toList := by
        decide
      rw [this]
      exact List.suffix_append _ _
    unfold fromPathL
    rw [if_pos hsuf]
  | Epub =>
    simp only [Format.extension]
    have hsuf : ¬ (".kepub.epub".toList <:+ lowerL (stem ++ '.' :: "epub".toList)) := by
      intro h
      unfold lowerL at h
      rw [List.map_append] at h
      have hlow : List.map Char.toLower ('.' :: "epub".toList) = ".epub".toList := by decide
      rw [hlow] at h
      have hsplit : ".kepub.epub".toList = ".kepub".toList ++ ".epub".toList := by decide
      rw [hsplit] at h
      rw [suffix_append_right_cancel] at h
      exact hk rfl h
    unfold fromPathL
    rw [if_neg hsuf, rustExtension_append_ext stem "epub".toList hfc (by decide) (by decide)]
    decide
  | Mobi =>
    simp only [Format.extension]
    have hsuf : ¬ (".kepub.epub".toList <:+ lowerL (stem ++ '.' :: "mobi".toList)) := by
      intro h
      unfold lowerL at h
      rw [List.map_append] at h
      have hlow : List.map Char.toLower ('.' :: "mobi".toList) = ".mobi".toList := by decide
      rw [hlow] at h
      have h2 : ".mobi".toList <:+ List.map Char.toLower stem ++ ".mobi".toList :=
        List.suffix_append _ _
      have := suffix_of_suffix_length_le h2 h (by decide)
      revert this
      decide
    unfold fromPathL
    rw [if_neg hsuf, rustExtension_append_ext stem "mobi".toList hfc (by decide) (by decide)]
    decide
  | Azw3 =>
    simp only [Format.extension]
    have hsuf : ¬ (".kepub.epub".toList <:+ lowerL (stem ++ '.' :: "azw3".toList)) := by
      intro h
      unfold lowerL at h
      rw [List.map_append] at h
      have hlow : List.map Char.toLower ('.' :: "azw3".toList) = ".azw3".toList := by decide
      rw [hlow] at h
      have h2 : ".azw3".toList <:+ List.map Char.toLower stem ++ ".azw3".toList :=
        List.suffix_append _ _
      have := suffix_of_suffix_length_le h2 h (by decide)
      revert this
      decide
    unfold fromPathL
    rw [if_neg hsuf, rustExtension_append_ext stem "azw3".toList hfc (by decide) (by decide)]
    decide

/-- C9 witness: the amended round trip evaluated at stem `book` for every
format variant. -/
theorem extension_roundtrip_witness :
    fromPathL ("book".toList ++ '.' :: (Format.extension Format.Epub).toList) = some Format.Epub
    ∧ fromPathL ("book".toList ++ '.' :: (Format.extension Format.Kepub).toList) = some Format.Kepub
    ∧ fromPathL ("book".toList ++ '.' :: (Format.extension Format.Mobi).toList) = some Format.Mobi
    ∧ fromPathL ("book".toList ++ '.' :: (Format.extension Format.Azw3).toList) = some Format.Azw3 :=
  ⟨extension_roundtrip Format.Epub "book".toList (by decide) (fun _ => by decide),
   extension_roundtrip Format.Kepub "book".toList (by decide) (by simp),
   extension_roundtrip Format.Mobi "book".toList (by decide) (by simp),
   extension_roundtrip Format.Azw3 "book".toList (by decide) (by simp)⟩

/-- Specification-side view of one container event: the `full-path` value
the scan would return at this event, which requires the raw (unstripped)
element name to be exactly `rootfile` and a `full-path` attribute to be
present. -/
def hitValue : XmlEvent → Option String
  | XmlEvent.startTag n attrs =>
    if n = "rootfile" then (attrs.find? (fun a => a.1 = "full-path")).map (fun a => a.2)
    else none
  | XmlEvent.emptyTag n attrs =>
    if n = "rootfile" then (attrs.find? (fun a => a.1 = "full-path")).map (fun a => a.2)
    else none
  | _ => none

/-- Reader-error recogniser for events. -/
def isErrEvent : XmlEvent → Bool
  | XmlEvent.err _ => true
  | _ => false

/-- Helper: an event that neither returns a path nor is a reader error is
skipped by the rootfile scan. -/
theorem rootfileScan_skip (x : XmlEvent) (hx : hitValue x = none)
    (hxe : isErrEvent x = false) (l : List XmlEvent) (ws : List String) :
    rootfileScan (x :: l) ws = rootfileScan l ws := by
  cases x with
  | startTag n attrs =>
    by_cases hn : n = "rootfile"
    · subst hn
      cases hfind : attrs.find? (fun a => a.1 = "full-path") with
      | none => simp [rootfileScan, hfind]
      | some a => simp [hitValue, hfind] at hx
    · simp only [hitValue, if_neg hn] at hx
      simp [rootfileScan, hn]
  | emptyTag n attrs =>
    by_cases hn : n = "rootfile"
    · subst hn
      cases hfind : attrs.find? (fun a => a.1 = "full-path") with
      | none => simp [rootfileScan, hfind]
      | some a => simp [hitValue, hfind] at hx
    · simp only [hitValue, if_neg hn] at hx
      simp [rootfileScan, hn]
  | endTag n => simp [rootfileScan]
  | text s => simp [rootfileScan]
  | err m => simp [isErrEvent] at hxe

/-- Helper: an event carrying a hit returns its `full-path` value at once. -/
theorem rootfileScan_hit (x : XmlEvent) (v : String) (hx : hitValue x = some v)
    (l : List XmlEvent) (ws : List String) :
    rootfileScan (x :: l) ws = (Except.ok v, ws) := by
  cases x with
  | startTag n attrs =>
    by_cases hn : n = "rootfile"
    · subst hn
      cases hfind : attrs.find? (fun a => a.1 = "full-path") with
      | none => simp [hitValue, hfind] at hx
      | some a =>
        have hv : a.2 = v := by simpa [hitValue, hfind] using hx
        simp [rootfileScan, hfind, hv]
    · simp [hitValue, hn] at hx
  | emptyTag n attrs =>
    by_cases hn : n = "rootfile"
    · subst hn
      cases hfind : attrs.find? (fun a => a.1 = "full-path") with
      | none => simp [hitValue, hfind] at hx
      | some a =>
        have hv : a.2 = v := by simpa [hitValue, hfind] using hx
        simp [rootfileScan, hfind, hv]
    · simp [hitValue, hn] at hx
  | endTag n => simp [hitValue] at hx
  | text s => simp [hitValue] at hx
  | err m => simp [hitValue] at hx

/-- C4 counterexample: a namespaced `c:rootfile` element (whose stripped
local name is `rootfile`) carrying `full-path="a.opf"` is skipped, and the
scan instead returns `b.opf` from the later unprefixed element, refuting
the claim that the first element with local name `rootfile` wins. -/
theorem parse_container_local_name_cex :
    rootfileScan
        [XmlEvent.startTag "c:rootfile" [("full-path", "a.opf")],
          XmlEvent.emptyTag "rootfile" [("full-path", "b.opf")]] [] =
      (Except.ok "b.opf", ([] : List String))
    ∧ local_name "c:rootfile" = "rootfile"
    ∧ ("b.opf" : String) ≠ "a.opf" := by
  refine ⟨by decide, by decide, by decide⟩

/-- C4 (amended): the container scan matches on the raw qualified element
name `rootfile` (no namespace stripping) and returns immediately from the
first start or self-closing such element that carries a `full-path`
attribute; prefixed or attribute-less rootfile elements are skipped; when
the stream ends with no such element, the scan fails with an invalid-book
error; and `parse_container` applies this scan to the readable
`META-INF/container.xml` entry's events. -/
theorem rootfile_first_raw_match :
    (∀ (pre rest : List XmlEvent) (e : XmlEvent) (v : String) (ws : List String),
        (∀ x ∈ pre, hitValue x = none ∧ isErrEvent x = false) →
        hitValue e = some v →
        rootfileScan (pre ++ e :: rest) ws = (Except.ok v, ws))
    ∧ (∀ (evs : List XmlEvent) (ws : List String),
        (∀ x ∈ evs, hitValue x = none ∧ isErrEvent x = false) →
        rootfileScan evs ws =
          (Except.error (Error.InvalidBook "container.xml: no rootfile element found"), ws))
    ∧ (∀ (zip : List Entry) (ws : List String) (e : Entry) (c : String),
        byName zip "META-INF/container.xml" = some e → e.raw = some c →
        parse_container zip ws = rootfileScan e.events ws) := by
  refine ⟨?_, ?_, ?_⟩
  · intro pre rest e v ws hpre he
    induction pre with
    | nil => simpa using rootfileScan_hit e v he rest ws
    | cons x t ih =>
      have hx := hpre x (List.mem_cons_self x t)
      rw [List.cons_append, rootfileScan_skip x hx.1 hx.2]
      refine ih fun y hy => ?_
      exact hpre y (List.mem_cons_of_mem x hy)
  · intro evs ws h
    induction evs with
    | nil => rfl
    | cons x t ih =>
      have hx := h x (List.mem_cons_self x t)
      rw [rootfileScan_skip x hx.1 hx.2]
      refine ih fun y hy => ?_
      exact h y (List.mem_cons_of_mem x hy)
  · intro zip ws e c hb hr
    simp [parse_container, hb, hr]

/-- C4 witness: the amended scan applied past a prefixed element and an
attribute-less element, and the no-element failure at a concrete stream. -/
theorem rootfile_first_raw_match_witness :
    rootfileScan
        [XmlEvent.startTag "ns:rootfile" [("full-path", "x.opf")],
          XmlEvent.startTag "rootfile" [],
          XmlEvent.emptyTag "rootfile" [("full-path", "y.opf")]] ["w"] =
      (Except.ok "y.opf", ["w"])
    ∧ rootfileScan [XmlEvent.text "hi"] [] =
      (Except.error (Error.InvalidBook "container.xml: no rootfile element found"),
        ([] : List String)) :=
  ⟨rootfile_first_raw_match.1
      [XmlEvent.startTag "ns:rootfile" [("full-path", "x.opf")], XmlEvent.startTag "rootfile" []]
      [] (XmlEvent.emptyTag "rootfile" [("full-path", "y.opf")]) "y.opf" ["w"]
      (by decide) (by decide),
    rootfile_first_raw_match.2.1 [XmlEvent.text "hi"] [] (by decide)⟩

/-- Helper: `parse_container` on a container with no
`META-INF/container.xml` entry. -/
theorem parse_container_missing (zip : List Entry) (ws : List String)
    (h : byName zip "META-INF/container.xml" = none) :
    parse_container zip ws =
      (Except.error (Error.InvalidBook "META-INF/container.xml not found"),
        ws ++ ["META-INF/container.xml is missing"]) := by
  simp [parse_container, h]

/-- Helper: `parse_container` on a container whose `META-INF/container.xml`
entry cannot be read as UTF-8 text. -/
theorem parse_container_unreadable (zip : List Entry) (ws : List String) (e : Entry)
    (h : byName zip "META-INF/container.xml" = some e) (hr : e.raw = none) :
    parse_container zip ws =
      (Except.error (Error.InvalidBook "failed to read container.xml: io error"),
        ws ++ ["META-INF/container.xml: failed to read: io error"]) := by
  simp [parse_container, h, hr]

/-- C6: when `META-INF/container.xml` is absent or unreadable, the locator
fails with an `InvalidBook` error and its warning list gains a matching
entry before the error is raised, and the whole open operation fails with
an `InvalidBook` error. -/
theorem container_missing_fatal :
    (∀ (zip : List Entry) (ws : List String),
        byName zip "META-INF/container.xml" = none →
        parse_container zip ws =
          (Except.error (Error.InvalidBook "META-INF/container.xml not found"),
            ws ++ ["META-INF/container.xml is missing"]))
    ∧ (∀ (zip : List Entry) (ws : List String) (e : Entry),
        byName zip "META-INF/container.xml" = some e → e.raw = none →
        parse_container zip ws =
          (Except.error (Error.InvalidBook "failed to read container.xml: io error"),
            ws ++ ["META-INF/container.xml: failed to read: io error"]))
    ∧ (∀ (p : String) (entries : List Entry) (fmt : Format),
        Format.from_path p = some fmt →
        (byName entries "META-INF/container.xml" = none ∨
          ∃ e, byName entries "META-INF/container.xml" = some e ∧ e.raw = none) →
        ∃ m, EpubBook.open p (FileInput.zip entries) = Except.error (Error.InvalidBook m)) := by
  refine ⟨parse_container_missing, parse_container_unreadable, ?_⟩
  intro p entries fmt hf hc
  rcases hc with hc | ⟨e, hc, hr⟩
  · refine ⟨"META-INF/container.xml not found", ?_⟩
    simp [EpubBook.open, hf, parse_container_missing entries _ hc]
  · refine ⟨"failed to read container.xml: io error", ?_⟩
    simp [EpubBook.open, hf, parse_container_unreadable entries _ e hc hr]

/-- Concrete container holding only a mimetype entry, used as witness
input. -/
def mimetypeOnlyZip : List Entry :=
  [{ name := "mimetype", stored := true, raw := some "application/epub+zip",
     events := [], size := 20 }]

/-- C6 witness: a ZIP with only a mimetype entry (no container.xml) at the
locator and at the open operation. -/
theorem container_missing_fatal_witness :
    parse_container mimetypeOnlyZip [] =
      (Except.error (Error.InvalidBook "META-INF/container.xml not found"),
        ["META-INF/container.xml is missing"])
    ∧ ∃ m,
        EpubBook.open "book.epub" (FileInput.zip mimetypeOnlyZip) =
          Except.error (Error.InvalidBook m) :=
  ⟨container_missing_fatal.1 mimetypeOnlyZip [] (by decide),
    container_missing_fatal.2.2 "book.epub" mimetypeOnlyZip Format.Epub (by decide)
      (Or.inl (by decide))⟩

/-- Helper: a list headed by an entry named `mimetype` resolves that name to
its head. -/
theorem byName_head (e : Entry) (t : List Entry) (h : e.name = "mimetype") :
    byName (e :: t) "mimetype" = some e := by
  simp [byName, List.find?_cons, h]

/-- Concrete archive whose first entry has the wrong name while its
`mimetype` entry holds the wrong content. -/
def wrongFirstZip : List Entry :=
  [⟨"foo", true, some "x", [], 1⟩, ⟨"mimetype", true, some "bad", [], 3⟩]

/-- C5 counterexample: this archive exhibits two problems (first entry not
named `mimetype`, and the `mimetype` entry's trimmed content wrong), yet the
validator emits exactly one warning line, refuting independent reporting of
each problem. -/
theorem validate_mimetype_early_return_cex :
    validate_mimetype wrongFirstZip [] =
      ["mimetype file: first ZIP entry is \x27foo\x27, expected \x27mimetype\x27"]
    ∧ (validate_mimetype wrongFirstZip []).length = 1
    ∧ byName wrongFirstZip "mimetype" = some ⟨"mimetype", true, some "bad", [], 3⟩
    ∧ trimS "bad" ≠ "application/epub+zip" := by
  refine ⟨by decide, by decide, by decide, by decide⟩

/-- C5 (amended): the validator only ever appends warnings (never an
error); the checks run sequentially with early exit — an empty archive or a
wrong first-entry name yields exactly that one warning and stops — while in
the surviving region the storage check and the content check are
independent, one warning each, and a fully conforming archive yields zero
warnings. -/
theorem validate_mimetype_sequential :
    (∀ (z : List Entry) (ws : List String),
        validate_mimetype z ws = ws ++ validate_mimetype z [])
    ∧ (∀ ws, validate_mimetype [] ws = ws ++ ["mimetype file: ZIP archive is empty"])
    ∧ (∀ (z : List Entry) (ws : List String) (e : Entry),
        z.head? = some e → e.name ≠ "mimetype" →
        validate_mimetype z ws =
          ws ++
            ["mimetype file: first ZIP entry is \x27" ++ e.name ++
              "\x27, expected \x27mimetype\x27"])
    ∧ (∀ (e : Entry) (t : List Entry) (ws : List String) (c : String),
        e.name = "mimetype" → e.stored = false → e.raw = some c →
        trimS c = "application/epub+zip" →
        validate_mimetype (e :: t) ws =
          ws ++ ["mimetype file: should be stored uncompressed"])
    ∧ (∀ (e : Entry) (t : List Entry) (ws : List String) (c : String),
        e.name = "mimetype" → e.stored = true → e.raw = some c →
        trimS c ≠ "application/epub+zip" →
        validate_mimetype (e :: t) ws =
          ws ++
            ["mimetype file: expected \x27application/epub+zip\x27, got \x27" ++
              trimS c ++ "\x27"])
    ∧ (∀ (e : Entry) (t : List Entry) (ws : List String) (c : String),
        e.name = "mimetype" → e.stored = false → e.raw = some c →
        trimS c ≠ "application/epub+zip" →
        validate_mimetype (e :: t) ws =
          ws ++
            ["mimetype file: should be stored uncompressed",
              "mimetype file: expected \x27application/epub+zip\x27, got \x27" ++
                trimS c ++ "\x27"])
    ∧ (∀ (e : Entry) (t : List Entry) (ws : List String) (c : String),
        e.name = "mimetype" → e.stored = true → e.raw = some c →
        trimS c = "application/epub+zip" →
        validate_mimetype (e :: t) ws = ws) := by
  refine ⟨?_, ?_, ?_, ?_, ?_, ?_, ?_⟩
  · intro z ws
    cases z with
    | nil => simp [validate_mimetype]
    | cons e t =>
      by_cases hn : e.name = "mimetype"
      · cases hb : byName (e :: t) "mimetype" with
        | none =>
          by_cases hs : e.stored <;> simp [validate_mimetype, hn, hb, hs]
        | some e2 =>
          cases hr : e2.raw with
          | none =>
            by_cases hs : e.stored <;> simp [validate_mimetype, hn, hb, hr, hs]
          | some c =>
            by_cases hs : e.stored <;>
              by_cases hc : trimS c = "application/epub+zip" <;>
                simp [validate_mimetype, hn, hb, hr, hs, hc]
      · simp [validate_mimetype, hn]
  · intro ws
    simp [validate_mimetype]
  · intro z ws e hz hn
    cases z with
    | nil => simp at hz
    | cons x t =>
      simp only [List.head?_cons, Option.some.injEq] at hz
      subst hz
      simp [validate_mimetype, hn]
  · intro e t ws c hn hs hr hc
    simp [validate_mimetype, hn, byName_head e t hn, hr, hc, hs]
  · intro e t ws c hn hs hr hc
    simp [validate_mimetype, hn, byName_head e t hn, hr, hc, hs]
  · intro e t ws c hn hs hr hc
    simp [validate_mimetype, hn, byName_head e t hn, hr, hc, hs]
  · intro e t ws c hn hs hr hc
    simp [validate_mimetype, hn, byName_head e t hn, hr, hc, hs]

/-- C5 witness: a stored-and-content double violation yields the two
independent warnings in order, and a conforming archive yields none. -/
theorem validate_mimetype_sequential_witness :
    validate_mimetype [⟨"mimetype", false, some "bad", [], 3⟩] ["w0"] =
      ["w0"] ++
        ["mimetype file: should be stored uncompressed",
          "mimetype file: expected \x27application/epub+zip\x27, got \x27" ++
            trimS "bad" ++ "\x27"]
    ∧ validate_mimetype [⟨"mimetype", true, some "application/epub+zip", [], 20⟩]
        ([] : List String) = [] :=
  ⟨validate_mimetype_sequential.2.2.2.2.2.1 ⟨"mimetype", false, some "bad", [], 3⟩ [] ["w0"]
      "bad" rfl rfl rfl (by decide),
    validate_mimetype_sequential.2.2.2.2.2.2 ⟨"mimetype", true, some "application/epub+zip", [], 20⟩
      [] [] "application/epub+zip" rfl rfl rfl (by decide)⟩

/-- C1: cover resolution applies two ordered strategies with no merging.
An id candidate matched in the manifest makes the `resolve_cover` outcome
final (whether a hit on `opf_dir + href`, a hit on bare `href`, or a
warning with no cover); an unmatched id warns and falls through to the
properties scan; no id candidate goes straight to the properties scan; and
with no `cover-image` token anywhere the result is no cover, no warning. -/
theorem detect_cover_strategy_spec :
    (∀ (zip : List Entry) (dir : String) (items : List (String × String × Option String))
        (ws : List String) (cid : String) (it : String × String × Option String),
        items.find? (fun x => x.1 = cid) = some it →
        detect_cover zip dir (some cid) items ws =
          resolve_cover zip (dir ++ it.2.1) it.2.1 ws)
    ∧ (∀ (zip : List Entry) (dir : String) (items : List (String × String × Option String))
        (ws : List String) (cid : String),
        items.find? (fun x => x.1 = cid) = none →
        detect_cover zip dir (some cid) items ws =
          coverFromProperties zip dir items
            (ws ++
              ["cover meta references item \x27" ++ cid ++
                "\x27 which is not in the manifest"]))
    ∧ (∀ (zip : List Entry) (dir : String) (items : List (String × String × Option String))
        (ws : List String),
        detect_cover zip dir none items ws = coverFromProperties zip dir items ws)
    ∧ (∀ (zip : List Entry) (dir : String) (items : List (String × String × Option String))
        (ws : List String),
        (∀ it ∈ items, ∀ p, it.2.2 = some p →
          (wsTokens p).any (fun w => w = "cover-image".toList) = false) →
        coverFromProperties zip dir items ws = (none, ws))
    ∧ (∀ (zip : List Entry) (full href : String) (ws : List String) (e : Entry),
        byName zip full = some e →
        resolve_cover zip full href ws = (some { href := full, size := e.size }, ws))
    ∧ (∀ (zip : List Entry) (full href : String) (ws : List String) (e : Entry),
        byName zip full = none → byName zip href = some e →
        resolve_cover zip full href ws = (some { href := href, size := e.size }, ws))
    ∧ (∀ (zip : List Entry) (full href : String) (ws : List String),
        byName zip full = none → byName zip href = none →
        resolve_cover zip full href ws =
          (none, ws ++ ["cover image file not found in ZIP: " ++ href])) := by
  refine ⟨?_, ?_, ?_, ?_, ?_, ?_, ?_⟩
  · intro zip dir items ws cid it h
    simp [detect_cover, h]
  · intro zip dir items ws cid h
    simp [detect_cover, h]
  · intro zip dir items ws
    simp [detect_cover]
  · intro zip dir items ws hno
    induction items with
    | nil => rfl
    | cons it t ih =>
      obtain ⟨id, href, props⟩ := it
      cases props with
      | none =>
        rw [show coverFromProperties zip dir ((id, href, none) :: t) ws =
          coverFromProperties zip dir t ws from rfl]
        refine ih fun y hy => ?_
        exact hno y (List.mem_cons_of_mem _ hy)
      | some p =>
        have hfalse := hno (id, href, some p) (by simp) p rfl
        simp only [coverFromProperties, hfalse, Bool.false_eq_true, if_false]
        refine ih fun y hy => ?_
        exact hno y (List.mem_cons_of_mem _ hy)
  · intro zip full href ws e h
    simp [resolve_cover, h]
  · intro zip full href ws e h1 h2
    simp [resolve_cover, h1, h2]
  · intro zip full href ws h1 h2
    simp [resolve_cover, h1, h2]

/-- Concrete archive for the cover witness: only the strategy-2 candidate
file exists; the id-matched href is absent. -/
def coverWitnessZip : List Entry :=
  [⟨"OEBPS/other.jpg", true, none, [], 9⟩]

/-- C1 witness: with the meta cover id matched to a missing file while a
`properties="cover-image"` item with an existing file is also present, the
id match is final: the outcome is no cover plus the not-found warning, not
the properties-flagged cover. -/
theorem detect_cover_strategy_spec_witness :
    detect_cover coverWitnessZip "OEBPS/" (some "cvr")
        [("cvr", "missing.jpg", none), ("img", "other.jpg", some "cover-image")] [] =
      resolve_cover coverWitnessZip ("OEBPS/" ++ "missing.jpg") "missing.jpg" []
    ∧ resolve_cover coverWitnessZip ("OEBPS/" ++ "missing.jpg") "missing.jpg" [] =
      (none, ["cover image file not found in ZIP: missing.jpg"]) :=
  ⟨detect_cover_strategy_spec.1 coverWitnessZip "OEBPS/"
      [("cvr", "missing.jpg", none), ("img", "other.jpg", some "cover-image")] []
      "cvr" ("cvr", "missing.jpg", none) (by decide),
    by decide⟩

/-- Helper: the head of a filtered list is the first element satisfying the
predicate. -/
theorem filter_head?_eq_find? {α : Type} (p : α → Bool) (l : List α) :
    (l.filter p).head? = l.find? p := by
  induction l with
  | nil => rfl
  | cons a t ih => cases h : p a <;> simp [List.filter_cons, List.find?_cons, h, ih]

/-- C2: the DRM classifier follows the exact ordered decision procedure:
absent encryption.xml is None; unreadable is Unknown; the Adobe substring
scan wins over everything else, then the Kobo substring scan; otherwise the
algorithm scan decides — reader error or zero algorithms is Unknown, an
all-font-obfuscation list is None, and otherwise the first algorithm not in
the font-obfuscation set names Protected(Other(..)). -/
theorem detect_drm_spec :
    (∀ zip : List Entry, byName zip "META-INF/encryption.xml" = none →
        detect_drm zip = DrmStatus.None)
    ∧ (∀ (zip : List Entry) (e : Entry),
        byName zip "META-INF/encryption.xml" = some e → e.raw = none →
        detect_drm zip = DrmStatus.Unknown)
    ∧ (∀ (zip : List Entry) (e : Entry) (c : String),
        byName zip "META-INF/encryption.xml" = some e → e.raw = some c →
        (containsSubstr c "urn:adobe:ns:adept" ||
          containsSubstr c "http://ns.adobe.com/adept") = true →
        detect_drm zip = DrmStatus.Protected DrmScheme.AdobeAdept)
    ∧ (∀ (zip : List Entry) (e : Entry) (c : String),
        byName zip "META-INF/encryption.xml" = some e → e.raw = some c →
        (containsSubstr c "urn:adobe:ns:adept" ||
          containsSubstr c "http://ns.adobe.com/adept") = false →
        containsSubstr c "urn:kobo:" = true →
        detect_drm zip = DrmStatus.Protected DrmScheme.KoboProtected)
    ∧ (∀ (zip : List Entry) (e : Entry) (c : String),
        byName zip "META-INF/encryption.xml" = some e → e.raw = some c →
        (containsSubstr c "urn:adobe:ns:adept" ||
          containsSubstr c "http://ns.adobe.com/adept") = false →
        containsSubstr c "urn:kobo:" = false →
        collectAlgs e.events = Except.error () →
        detect_drm zip = DrmStatus.Unknown)
    ∧ (∀ (zip : List Entry) (e : Entry) (c : String),
        byName zip "META-INF/encryption.xml" = some e → e.raw = some c →
        (containsSubstr c "urn:adobe:ns:adept" ||
          containsSubstr c "http://ns.adobe.com/adept") = false →
        containsSubstr c "urn:kobo:" = false →
        collectAlgs e.events = Except.ok [] →
        detect_drm zip = DrmStatus.Unknown)
    ∧ (∀ (zip : List Entry) (e : Entry) (c : String) (algs : List String),
        byName zip "META-INF/encryption.xml" = some e → e.raw = some c →
        (containsSubstr c "urn:adobe:ns:adept" ||
          containsSubstr c "http://ns.adobe.com/adept") = false →
        containsSubstr c "urn:kobo:" = false →
        collectAlgs e.events = Except.ok algs → algs ≠ [] →
        algs.all fontObf = true →
        detect_drm zip = DrmStatus.None)
    ∧ (∀ (zip : List Entry) (e : Entry) (c : String) (algs : List String),
        byName zip "META-INF/encryption.xml" = some e → e.raw = some c →
        (containsSubstr c "urn:adobe:ns:adept" ||
          containsSubstr c "http://ns.adobe.com/adept") = false →
        containsSubstr c "urn:kobo:" = false →
        collectAlgs e.events = Except.ok algs →
        algs.all fontObf = false →
        ∃ u, algs.find? (fun a => ¬ fontObf a) = some u
          ∧ detect_drm zip = DrmStatus.Protected (DrmScheme.Other u)) := by
  refine ⟨?_, ?_, ?_, ?_, ?_, ?_, ?_, ?_⟩
  · intro zip h
    simp [detect_drm, h]
  · intro zip e hb hr
    simp [detect_drm, hb, hr]
  · intro zip e c hb hr ha
    simp [detect_drm, hb, hr, ha]
  · intro zip e c hb hr ha hk
    simp [detect_drm, hb, hr, ha, hk]
  · intro zip e c hb hr ha hk hc
    simp [detect_drm, hb, hr, ha, hk, hc]
  · intro zip e c hb hr ha hk hc
    simp [detect_drm, hb, hr, ha, hk, hc]
  · intro zip e c algs hb hr ha hk hc hne hall
    have hemp : algs.isEmpty = false := by
      cases algs with
      | nil => exact absurd rfl hne
      | cons x t => rfl
    simp [detect_drm, hb, hr, ha, hk, hc, hemp, hall]
  · intro zip e c algs hb hr ha hk hc hall
    have hne : algs ≠ [] := by
      intro h
      rw [h] at hall
      simp at hall
    have hemp : algs.isEmpty = false := by
      cases algs with
      | nil => exact absurd rfl hne
      | cons x t => rfl
    have hex : ∃ x ∈ algs, fontObf x = false := by
      rcases List.all_eq_false.mp hall with ⟨x, hx, hpx⟩
      exact ⟨x, hx, by simpa using hpx⟩
    have hfind : ∃ u, algs.find? (fun a => ¬ fontObf a) = some u := by
      rcases hex with ⟨x, hx, hpx⟩
      have : (algs.find? (fun a => ¬ fontObf a)).isSome := by
        rw [List.find?_isSome]
        exact ⟨x, hx, by simp [hpx]⟩
      exact Option.isSome_iff_exists.mp this
    rcases hfind with ⟨u, hu⟩
    refine ⟨u, hu, ?_⟩
    simp [detect_drm, hb, hr, ha, hk, hc, hemp, hall, filter_head?_eq_find?]
    have hu' : List.find? (fun a => !fontObf a) algs = some u := by simpa using hu
    rw [hu']
    rfl

/-- Concrete encryption.xml entries for the DRM witness. -/
def drmAdobeEntry : Entry :=
  ⟨"META-INF/encryption.xml", true, some "stuff urn:adobe:ns:adept stuff", [], 5⟩

/-- Archive carrying the Adobe ADEPT marker. -/
def drmAdobeZip : List Entry := [drmAdobeEntry]

/-- Entry whose only algorithm is IDPF font obfuscation. -/
def drmFontEntry : Entry :=
  ⟨"META-INF/encryption.xml", true, some "enc",
    [XmlEvent.emptyTag "EncryptionMethod" [("Algorithm", "http://www.idpf.org/2008/embedding")]], 5⟩

/-- Archive declaring only font obfuscation. -/
def drmFontZip : List Entry := [drmFontEntry]

/-- Entry with a single unrecognized namespaced algorithm. -/
def drmOtherEntry : Entry :=
  ⟨"META-INF/encryption.xml", true, some "enc",
    [XmlEvent.startTag "enc:EncryptionMethod" [("Algorithm", "https://example.com/custom-enc")]], 5⟩

/-- Archive declaring an unrecognized algorithm. -/
def drmOtherZip : List Entry := [drmOtherEntry]

/-- C2 witness: the Adobe substring branch, the font-obfuscation branch and
the Other branch evaluated at concrete archives. -/
theorem detect_drm_spec_witness :
    detect_drm drmAdobeZip = DrmStatus.Protected DrmScheme.AdobeAdept
    ∧ detect_drm drmFontZip = DrmStatus.None
    ∧ ∃ u, ["https://example.com/custom-enc"].find? (fun a => ¬ fontObf a) = some u
        ∧ detect_drm drmOtherZip = DrmStatus.Protected (DrmScheme.Other u) :=
  ⟨detect_drm_spec.2.2.1 drmAdobeZip drmAdobeEntry "stuff urn:adobe:ns:adept stuff"
      (by decide) (by decide) (by decide),
    detect_drm_spec.2.2.2.2.2.2.1 drmFontZip drmFontEntry "enc"
      ["http://www.idpf.org/2008/embedding"] (by decide) (by decide) (by decide) (by decide)
      (by decide) (by decide) (by decide),
    detect_drm_spec.2.2.2.2.2.2.2 drmOtherZip drmOtherEntry "enc"
      ["https://example.com/custom-enc"] (by decide) (by decide) (by decide) (by decide)
      (by decide) (by decide)⟩

/-- Specification-side view of one OPF event: the trimmed identifier text
the scan routes through the `identifier` arm at this event, if any. -/
def routedIdentifier (st : OpfState) (e : XmlEvent) : Option String :=
  match e with
  | XmlEvent.endTag n =>
    if local_name n = "metadata" ∨ local_name n = "manifest" then none
    else if st.in_metadata then
      match st.current_element with
      | some elem =>
        if elem = "identifier" ∧ trimS st.current_text ≠ "" then
          some (trimS st.current_text)
        else none
      | none => none
    else none
  | _ => none

theorem routeField_isbn_ne (md : Metadata) (elem text : String)
    (h : elem ≠ "identifier") : (routeField md elem text).isbn = md.isbn := by
  simp only [routeField]
  split_ifs <;> rfl

theorem opfStep_isbn (st : OpfState) (e : XmlEvent) :
    (opfStep st e).metadata.isbn =
      match st.metadata.isbn with
      | some v => some v
      | none =>
        match routedIdentifier st e with
        | some t => if looks_like_isbn t then some t else none
        | none => none := by
  cases e with
  | startTag n attrs =>
    have h : (opfStep st (XmlEvent.startTag n attrs)).metadata = st.metadata := by
      simp only [opfStep]
      split_ifs <;> rfl
    rw [h]
    cases st.metadata.isbn <;> rfl
  | emptyTag n attrs =>
    have h : (opfStep st (XmlEvent.emptyTag n attrs)).metadata.isbn = st.metadata.isbn := by
      simp only [opfStep]
      split_ifs <;> try rfl
      cases lastAttr attrs "name" none <;> cases lastAttr attrs "content" none <;>
        try rfl
      dsimp only
      split_ifs <;> rfl
    rw [h]
    cases st.metadata.isbn <;> rfl
  | text s =>
    have h : (opfStep st (XmlEvent.text s)).metadata = st.metadata := by
      simp only [opfStep]
      split_ifs <;> rfl
    rw [h]
    cases st.metadata.isbn <;> rfl
  | err m =>
    have h : (opfStep st (XmlEvent.err m)).metadata = st.metadata := rfl
    rw [h]
    cases st.metadata.isbn <;> rfl
  | endTag n =>
    by_cases hmeta : local_name n = "metadata"
    · simp [opfStep, routedIdentifier, hmeta]
      cases st.metadata.isbn <;> rfl
    · by_cases hman : local_name n = "manifest"
      · simp [opfStep, routedIdentifier, hmeta, hman]
        cases st.metadata.isbn <;> rfl
      · by_cases hin : st.in_metadata = true
        · cases hcur : st.current_element with
          | none =>
            simp [opfStep, routedIdentifier, hmeta, hman, hin, hcur]
            cases st.metadata.isbn <;> rfl
          | some elem =>
            by_cases hid : elem = "identifier"
            · subst hid
              by_cases htr : trimS st.current_text = ""
              · simp [opfStep, routedIdentifier, hmeta, hman, hin, hcur, htr]
                cases st.metadata.isbn <;> rfl
              · simp only [opfStep, routedIdentifier, hmeta, hman, hin, hcur]
                simp [htr, routeField]
                cases hi : st.metadata.isbn with
                | none =>
                  by_cases hl : looks_like_isbn (trimS st.current_text) <;> simp [hi, hl]
                | some v => simp [hi]
            · by_cases htr : trimS st.current_text = ""
              · simp [opfStep, routedIdentifier, hmeta, hman, hin, hcur, htr, hid]
                cases st.metadata.isbn <;> rfl
              · simp [opfStep, routedIdentifier, hmeta, hman, hin, hcur, htr, hid,
                  routeField_isbn_ne st.metadata elem (trimS st.current_text) hid]
                cases st.metadata.isbn <;> rfl
        · simp [opfStep, routedIdentifier, hmeta, hman, hin]
          cases st.metadata.isbn <;> rfl

/-- Sequence of identifier texts the OPF scan routes, in document order,
starting from a given scan state (empty after a reader error, where the
scan aborts and the metadata never surfaces). -/
def identifierLog (st : OpfState) : List XmlEvent → List String
  | [] => []
  | XmlEvent.err _ :: _ => []
  | e :: rest => (routedIdentifier st e).toList ++ identifierLog (opfStep st e) rest

theorem opfScan_cons (e : XmlEvent) (he : isErrEvent e = false) (st : OpfState)
    (rest : List XmlEvent) :
    opfScan st (e :: rest) = opfScan (opfStep st e) rest := by
  cases e <;> first | rfl | simp [isErrEvent] at he

theorem identifierLog_cons (e : XmlEvent) (he : isErrEvent e = false) (st : OpfState)
    (rest : List XmlEvent) :
    identifierLog st (e :: rest) =
      (routedIdentifier st e).toList ++ identifierLog (opfStep st e) rest := by
  cases e <;> first | rfl | simp [isErrEvent] at he

theorem opfScan_isbn_step (e : XmlEvent) (st st' : OpfState) (rest : List XmlEvent)
    (he : isErrEvent e = false)
    (hrec : st'.metadata.isbn =
      (match (opfStep st e).metadata.isbn with
      | some v => some v
      | none => List.find? looks_like_isbn (identifierLog (opfStep st e) rest))) :
    st'.metadata.isbn =
      (match st.metadata.isbn with
      | some v => some v
      | none => List.find? looks_like_isbn (identifierLog st (e :: rest))) := by
  rw [identifierLog_cons e he st rest, hrec, opfStep_isbn st e]
  cases hi : st.metadata.isbn with
  | some v => rfl
  | none =>
    cases hr : routedIdentifier st e with
    | none => simp
    | some t => by_cases hl : looks_like_isbn t <;> simp [List.find?_cons, hl]

theorem opfScan_isbn (evs : List XmlEvent) : ∀ (st st' : OpfState),
    opfScan st evs = Except.ok st' →
    st'.metadata.isbn =
      (match st.metadata.isbn with
      | some v => some v
      | none => List.find? looks_like_isbn (identifierLog st evs)) := by
  induction evs with
  | nil =>
    intro st st' h
    have hs : st = st' := by simpa [opfScan] using h
    subst hs
    cases st.metadata.isbn <;> simp [identifierLog]
  | cons e rest ih =>
    intro st st' h
    cases e with
    | err m => simp [opfScan] at h
    | startTag n attrs =>
      exact opfScan_isbn_step (XmlEvent.startTag n attrs) st st' rest rfl
        (ih _ st' (by rwa [opfScan_cons (XmlEvent.startTag n attrs) rfl st rest] at h))
    | emptyTag n attrs =>
      exact opfScan_isbn_step (XmlEvent.emptyTag n attrs) st st' rest rfl
        (ih _ st' (by rwa [opfScan_cons (XmlEvent.emptyTag n attrs) rfl st rest] at h))
    | endTag n =>
      exact opfScan_isbn_step (XmlEvent.endTag n) st st' rest rfl
        (ih _ st' (by rwa [opfScan_cons (XmlEvent.endTag n) rfl st rest] at h))
    | text s =>
      exact opfScan_isbn_step (XmlEvent.text s) st st' rest rfl
        (ih _ st' (by rwa [opfScan_cons (XmlEvent.text s) rfl st rest] at h))

/-- C3: for every package document the scan accepts, the resulting ISBN is
the first identifier text (trimmed) whose filtering to ASCII digits and X
leaves exactly 10 or 13 characters, hence set at most once and absent when
no identifier passes; "978-0-13-468599-1" is accepted and "12345" is
rejected. -/
theorem isbn_first_passing :
    (∀ (zip : List Entry) (opf_path : String) (ws ws' : List String) (e : Entry)
        (v : Option String) (md : Metadata) (ci : Option CoverInfo),
        byName zip opf_path = some e →
        parse_opf zip opf_path ws = (Except.ok (v, md, ci), ws') →
        md.isbn = List.find? looks_like_isbn (identifierLog {} e.events))
    ∧ looks_like_isbn "978-0-13-468599-1" = true
    ∧ looks_like_isbn "12345" = false := by
  refine ⟨?_, by decide, by decide⟩
  intro zip opf_path ws ws' e v md ci hb hp
  simp only [parse_opf, hb] at hp
  cases hraw : e.raw with
  | none => simp [hraw] at hp
  | some c =>
    simp only [hraw] at hp
    cases hscan : opfScan {} e.events with
    | error m => simp [hscan] at hp
    | ok st =>
      simp only [hscan] at hp
      simp only [Prod.mk.injEq, Except.ok.injEq] at hp
      obtain ⟨⟨h1, h2, h3⟩, h4⟩ := hp
      rw [← h2]
      have := opfScan_isbn e.events {} st hscan
      simpa using this

/-- Concrete package document with identifiers "12345" (rejected),
"978-0-13-468599-1" (first accepted) and "0-306-40615-2" (also passing but
later). -/
def isbnOpfEntry : Entry :=
  ⟨"content.opf", true, some "opf",
    [XmlEvent.startTag "metadata" [],
      XmlEvent.startTag "dc:identifier" [], XmlEvent.text "12345",
      XmlEvent.endTag "dc:identifier",
      XmlEvent.startTag "dc:identifier" [], XmlEvent.text "978-0-13-468599-1",
      XmlEvent.endTag "dc:identifier",
      XmlEvent.startTag "dc:identifier" [], XmlEvent.text "0-306-40615-2",
      XmlEvent.endTag "dc:identifier",
      XmlEvent.endTag "metadata"], 10⟩

/-- Archive holding just the identifier-test package document. -/
def isbnZip : List Entry := [isbnOpfEntry]

/-- C3 witness: the scan of the concrete document sets the ISBN to the
first passing identifier. -/
theorem isbn_first_passing_witness :
    ({ isbn := some "978-0-13-468599-1" } : Metadata).isbn =
      List.find? looks_like_isbn (identifierLog {} isbnOpfEntry.events) :=
  isbn_first_passing.1 isbnZip "content.opf" []
    ["OPF: missing required <dc:title>", "OPF: missing required <dc:language>"]
    isbnOpfEntry none { isbn := some "978-0-13-468599-1" } none (by decide) (by decide)

/-- C8: opening the same unmodified container twice yields field-for-field
identical snapshots — format, version, metadata, DRM status, cover info and
the warnings list in the same order; the open operation is a pure function
of the path and the file contents. -/
theorem open_deterministic (p : String) (file : FileInput) (b₁ b₂ : EpubBook)
    (h₁ : EpubBook.open p file = Except.ok b₁)
    (h₂ : EpubBook.open p file = Except.ok b₂) :
    b₁.format = b₂.format ∧ b₁.epub_version = b₂.epub_version
    ∧ b₁.metadata = b₂.metadata ∧ b₁.drm_status = b₂.drm_status
    ∧ b₁.cover_info = b₂.cover_info ∧ b₁.warnings = b₂.warnings := by
  rw [h₁] at h₂
  have hb : b₁ = b₂ := by
    injection h₂
  subst hb
  exact ⟨rfl, rfl, rfl, rfl, rfl, rfl⟩

/-- Concrete well-formed sample container: a conforming mimetype entry, a
container.xml pointing at the package document, a package document with
title, language, identifier and one manifest item whose file exists. -/
def sampleZip : List Entry :=
  [ { name := "mimetype", stored := true, raw := some "application/epub+zip",
      events := [], size := 20 },
    { name := "META-INF/container.xml", stored := false, raw := some "container",
      size := 120,
      events := [XmlEvent.emptyTag "rootfile" [("full-path", "OEBPS/content.opf")]] },
    { name := "OEBPS/content.opf", stored := false, raw := some "opf", size := 300,
      events :=
        [ XmlEvent.startTag "package" [("version", "3.0")],
          XmlEvent.startTag "metadata" [],
          XmlEvent.startTag "dc:title" [], XmlEvent.text "T", XmlEvent.endTag "dc:title",
          XmlEvent.startTag "dc:language" [], XmlEvent.text "en",
          XmlEvent.endTag "dc:language",
          XmlEvent.startTag "dc:identifier" [], XmlEvent.text "978-0-13-468599-1",
          XmlEvent.endTag "dc:identifier",
          XmlEvent.endTag "metadata",
          XmlEvent.startTag "manifest" [],
          XmlEvent.emptyTag "item" [("id", "cvr"), ("href", "cover.jpg")],
          XmlEvent.endTag "manifest",
          XmlEvent.endTag "package" ] },
    { name := "OEBPS/cover.jpg", stored := false, raw := none, events := [], size := 512 } ]

/-- Snapshot produced by opening the sample container. -/
def sampleBook : EpubBook :=
  { path := "book.epub", format := Format.Epub, epub_version := some "3.0",
    metadata :=
      { title := some "T", language := some "en", isbn := some "978-0-13-468599-1" },
    drm_status := DrmStatus.None, cover_info := none, warnings := [] }

/-- C8 witness: the determinism theorem applied to the sample container's
two (identical) opens. -/
theorem open_deterministic_witness :
    EpubBook.open "book.epub" (FileInput.zip sampleZip) = Except.ok sampleBook
    ∧ (sampleBook.format = sampleBook.format
      ∧ sampleBook.epub_version = sampleBook.epub_version
      ∧ sampleBook.metadata = sampleBook.metadata
      ∧ sampleBook.drm_status = sampleBook.drm_status
      ∧ sampleBook.cover_info = sampleBook.cover_info
      ∧ sampleBook.warnings = sampleBook.warnings) :=
  ⟨by decide,
    open_deterministic "book.epub" (FileInput.zip sampleZip) sampleBook sampleBook
      (by decide) (by decide)⟩

/-- Warnings accumulated by the pre-DRM pipeline stages alone: mimetype
validator, then container locator, then package parser (with cover
resolution and manifest checks). -/
def preDrmWarnings (entries : List Entry) : List String :=
  match parse_container entries (validate_mimetype entries []) with
  | (Except.error _, ws) => ws
  | (Except.ok opf_path, ws) => (parse_opf entries opf_path ws).2

/-- C10: a successful open's warnings are exactly those accumulated before
DRM classification (the DRM detector has no warning channel), and its DRM
status is computed by `detect_drm` independently of the warnings list. -/
theorem warnings_pre_drm (p : String) (entries : List Entry) (b : EpubBook)
    (h : EpubBook.open p (FileInput.zip entries) = Except.ok b) :
    b.warnings = preDrmWarnings entries ∧ b.drm_status = detect_drm entries := by
  simp only [EpubBook.open] at h
  cases hf : Format.from_path p with
  | none => rw [hf] at h; simp at h
  | some fmt =>
    rw [hf] at h
    rcases hpc : parse_container entries (validate_mimetype entries []) with ⟨r, ws2⟩
    cases r with
    | error e =>
      rw [hpc] at h
      simp at h
    | ok opf =>
      rw [hpc] at h
      dsimp only at h
      rcases hpo : parse_opf entries opf ws2 with ⟨r2, ws3⟩
      cases r2 with
      | error e2 =>
        rw [hpo] at h
        simp at h
      | ok triple =>
        obtain ⟨v, md, ci⟩ := triple
        rw [hpo] at h
        dsimp only at h
        simp only [Except.ok.injEq] at h
        have hb : b =
            { path := p, format := fmt, epub_version := v, metadata := md,
              drm_status := detect_drm entries, cover_info := ci,
              warnings := ws3 } := h.symm
        subst hb
        constructor
        · show ws3 = preDrmWarnings entries
          simp [preDrmWarnings, hpc, hpo]
        · rfl

/-- C10 witness: the frame property evaluated at the sample container. -/
theorem warnings_pre_drm_witness :
    sampleBook.warnings = preDrmWarnings sampleZip
    ∧ sampleBook.drm_status = detect_drm sampleZip :=
  warnings_pre_drm "book.epub" sampleZip sampleBook (by decide)

end EbookTools
